import Mathlib

/-!
Verification of the reviewdog core: the diff-aware filtering engine and the
GitHub delivery pipeline (`service/github/github.go`, `filter`, and the
doghouse check server), shallowly embedded in Lean 4.

The repository subset at hand contains `service/github/github.go` in full,
plus the tests `filter_test.go` and `doghouse/server/doghouse_test.go`.
The filter implementation (`FilterCheck`) and the doghouse `Checker.Check`
implementation are not in the subset, so those are modelled from the spec,
as marked on each definition.
-/

namespace Reviewdog

/-! ### Diff model and filtering engine -/

/-- Kind of a content line of a unified-diff hunk: context (` `),
addition (`+`) or deletion (`-`). -/
inductive DiffLineKind where
  | context
  | added
  | deleted
deriving DecidableEq, Repr

/-- One `@@` hunk of a parsed unified diff: the starting new-file line
number of the hunk and its ordered content lines. -/
structure Hunk where
  startNew : Nat
  lines : List DiffLineKind
deriving DecidableEq, Repr

/-- One file section of a parsed multi-file unified diff, keyed by the
new-file path (the output shape of the external `diff.ParseMultiFile`
collaborator). -/
structure FileDiff where
  pathNew : String
  hunks : List Hunk
deriving DecidableEq, Repr

/-- A linter finding as consumed by the filter (`CheckResult` in the source):
file path and 1-based new-file line number. -/
structure CheckResult where
  path : String
  lnum : Nat
deriving DecidableEq, Repr

/-- A finding annotated by the filter (`FilteredCheck` in the source):
the finding, whether it is in the diff, and its diff position
(`LnumDiff`, 0 when absent). -/
structure FilteredCheck where
  result : CheckResult
  inDiff : Bool
  lnumDiff : Nat
deriving DecidableEq, Repr

/-- Filter mode (`difffilter.Mode` in the source). -/
inductive Mode where
  | modeAdded
  | modeDiffContext
  | modeFile
  | modeNoFilter
deriving DecidableEq, Repr

/-- Modelled from the spec: the per-hunk walk of the diff-position index.
`pos` is the running 1-based diff position (incremented by every content
line: context, addition and deletion); `newLine` is the running new-file
line number (incremented only by context and addition lines, which are the
indexable ones; deletions consume a position but no new-file line).
Returns the list of `(newFileLine, diffPosition, isAddition)` triples. -/
def hunkIndex (pos newLine : Nat) : List DiffLineKind → List (Nat × Nat × Bool)
  | [] => []
  | DiffLineKind.context :: rest => (newLine, pos, false) :: hunkIndex (pos + 1) (newLine + 1) rest
  | DiffLineKind.added :: rest => (newLine, pos, true) :: hunkIndex (pos + 1) (newLine + 1) rest
  | DiffLineKind.deleted :: rest => hunkIndex (pos + 1) newLine rest

/-- Modelled from the spec: the diff-position index across all hunks of one
file. The position counter starts at 1 on the first content line of the
file's first hunk and runs across hunks without resetting; each hunk
restarts the new-file line counter at its header's new-range start. -/
def hunksIndex (pos : Nat) : List Hunk → List (Nat × Nat × Bool)
  | [] => []
  | h :: rest => hunkIndex pos h.startNew h.lines ++ hunksIndex (pos + h.lines.length) rest

/-- Modelled from the spec: the diff-position index of one file section. -/
def fileIndex (fd : FileDiff) : List (Nat × Nat × Bool) :=
  hunksIndex 1 fd.hunks

/-- Character-level split of a path on the slash separator (an executable
stand-in for the string split used by path normalization). -/
def splitChars : List Char → List (List Char)
  | [] => [[]]
  | c :: rest =>
    if c = '/' then [] :: splitChars rest
    else
      match splitChars rest with
      | [] => [[c]]
      | g :: gs => (c :: g) :: gs

/-- Split a path into its slash-separated components. -/
def splitPath (p : String) : List String :=
  (splitChars p.toList).map (fun cs => String.mk cs)

/-- Join path components with slashes. -/
def joinParts : List String → String
  | [] => ""
  | [p] => p
  | p :: rest => p ++ "/" ++ joinParts rest

/-- Modelled from the spec: path normalization of a finding, stripping
`strip` leading path components and joining with the working-subdirectory
prefix (`relDir`), identity when `strip = 0` and `relDir` is empty. -/
def normPath (strip : Nat) (relDir : String) (p : String) : String :=
  let stripped := joinParts ((splitPath p).drop strip)
  if relDir = "" then stripped else relDir ++ "/" ++ stripped

/-- Modelled from the spec: look up a normalized finding path and new-file
line in the diff, yielding its diff position and whether that position was
introduced by an addition line. -/
def lookupLine (fds : List FileDiff) (path : String) (lnum : Nat) : Option (Nat × Bool) :=
  match fds.find? (fun fd => fd.pathNew = path) with
  | none => none
  | some fd =>
    match (fileIndex fd).find? (fun t => t.1 = lnum) with
    | none => none
    | some t => some t.2

/-- Modelled from the spec: classify one finding under a filter mode.
`added` keeps it when its line maps to an addition-introduced position;
`diff_context` when it maps to any position; `file` when its path appears
in the diff; `nofilter` always keeps it with `InDiff` forced true and
`DiffPosition` unset. -/
def filterOne (fds : List FileDiff) (strip : Nat) (relDir : String) (mode : Mode)
    (r : CheckResult) : FilteredCheck :=
  let p := normPath strip relDir r.path
  match mode with
  | Mode.modeNoFilter => ⟨r, true, 0⟩
  | Mode.modeFile => ⟨r, fds.any (fun fd => fd.pathNew = p), 0⟩
  | Mode.modeAdded =>
    match lookupLine fds p r.lnum with
    | some (pos, true) => ⟨r, true, pos⟩
    | _ => ⟨r, false, 0⟩
  | Mode.modeDiffContext =>
    match lookupLine fds p r.lnum with
    | some (pos, _) => ⟨r, true, pos⟩
    | none => ⟨r, false, 0⟩

/-- Modelled from the spec: `FilterCheck(results, filediffs, strip, relDir,
mode)` annotates every finding with `InDiff` and `DiffPosition`. -/
def FilterCheck (results : List CheckResult) (fds : List FileDiff)
    (strip : Nat) (relDir : String) (mode : Mode) : List FilteredCheck :=
  results.map (filterOne fds strip relDir mode)

/-- The two-file sample diff of `filter_test.go` in parsed form:
`sample.new.txt` has one hunk `@@ -1,3 +1,4 @@` with lines
(context, deletion, addition, addition, context), and `nonewline.new.txt`
has one hunk `@@ -1,4 +1,4 @@` with lines
(context, context, deletion, deletion, addition, addition). -/
def sampleFileDiffs : List FileDiff :=
  [ { pathNew := "sample.new.txt",
      hunks := [ { startNew := 1,
                   lines := [DiffLineKind.context, DiffLineKind.deleted,
                             DiffLineKind.added, DiffLineKind.added,
                             DiffLineKind.context] } ] },
    { pathNew := "nonewline.new.txt",
      hunks := [ { startNew := 1,
                   lines := [DiffLineKind.context, DiffLineKind.context,
                             DiffLineKind.deleted, DiffLineKind.deleted,
                             DiffLineKind.added, DiffLineKind.added] } ] } ]

/-- C1: for the two-file sample diff, `sample.new.txt` line 2 maps to diff
position 3 (addition) and `nonewline.new.txt` line 3 maps to diff position
5 (addition); `sample.new.txt` line 1 and `nonewline.new.txt` line 1 map
to context positions, not additions. Under `added` mode the two mapping
findings are kept with `InDiff` true at those positions while the other
two get `InDiff` false; under `diff_context` mode `sample.new.txt` lines
1, 2, 3 are all kept with positions 1, 3, 4. -/
theorem filter_sample_mapping :
    lookupLine sampleFileDiffs "sample.new.txt" 2 = some (3, true) ∧
    lookupLine sampleFileDiffs "nonewline.new.txt" 3 = some (5, true) ∧
    lookupLine sampleFileDiffs "sample.new.txt" 1 = some (1, false) ∧
    lookupLine sampleFileDiffs "nonewline.new.txt" 1 = some (1, false) ∧
    FilterCheck
      [⟨"sample.new.txt", 1⟩, ⟨"sample.new.txt", 2⟩,
       ⟨"nonewline.new.txt", 1⟩, ⟨"nonewline.new.txt", 3⟩]
      sampleFileDiffs 0 "" Mode.modeAdded =
      [⟨⟨"sample.new.txt", 1⟩, false, 0⟩,
       ⟨⟨"sample.new.txt", 2⟩, true, 3⟩,
       ⟨⟨"nonewline.new.txt", 1⟩, false, 0⟩,
       ⟨⟨"nonewline.new.txt", 3⟩, true, 5⟩] ∧
    FilterCheck
      [⟨"sample.new.txt", 1⟩, ⟨"sample.new.txt", 2⟩, ⟨"sample.new.txt", 3⟩]
      sampleFileDiffs 0 "" Mode.modeDiffContext =
      [⟨⟨"sample.new.txt", 1⟩, true, 1⟩,
       ⟨⟨"sample.new.txt", 2⟩, true, 3⟩,
       ⟨⟨"sample.new.txt", 3⟩, true, 4⟩] := by
  refine ⟨rfl, rfl, rfl, rfl, by decide, by decide⟩

/-- The findings kept by the filter under a mode: those whose annotated
`InDiff` flag is true. -/
def keptResults (results : List CheckResult) (fds : List FileDiff)
    (strip : Nat) (relDir : String) (mode : Mode) : List CheckResult :=
  ((FilterCheck results fds strip relDir mode).filter (fun fc => fc.inDiff)).map
    (fun fc => fc.result)

theorem filterOne_result (fds : List FileDiff) (strip : Nat) (relDir : String)
    (mode : Mode) (r : CheckResult) :
    (filterOne fds strip relDir mode r).result = r := by
  cases mode <;> simp only [filterOne]
  · rcases lookupLine fds (normPath strip relDir r.path) r.lnum with _ | ⟨pos, b⟩
    · rfl
    · cases b <;> rfl
  · rcases lookupLine fds (normPath strip relDir r.path) r.lnum with _ | ⟨pos, b⟩ <;> rfl

theorem mem_keptResults (results : List CheckResult) (fds : List FileDiff)
    (strip : Nat) (relDir : String) (mode : Mode) (r : CheckResult) :
    r ∈ keptResults results fds strip relDir mode ↔
      r ∈ results ∧ (filterOne fds strip relDir mode r).inDiff = true := by
  simp only [keptResults, FilterCheck, List.mem_map, List.mem_filter]
  constructor
  · rintro ⟨fc, ⟨⟨x, hx, rfl⟩, hin⟩, hres⟩
    rw [filterOne_result] at hres
    subst hres
    exact ⟨hx, hin⟩
  · rintro ⟨hr, hin⟩
    exact ⟨filterOne fds strip relDir mode r, ⟨⟨r, hr, rfl⟩, hin⟩,
      filterOne_result fds strip relDir mode r⟩

theorem filterOne_added_le_diffContext (fds : List FileDiff) (strip : Nat)
    (relDir : String) (r : CheckResult)
    (h : (filterOne fds strip relDir Mode.modeAdded r).inDiff = true) :
    (filterOne fds strip relDir Mode.modeDiffContext r).inDiff = true := by
  simp only [filterOne] at h ⊢
  rcases hl : lookupLine fds (normPath strip relDir r.path) r.lnum with _ | ⟨pos, b⟩
  · rw [hl] at h
    simp at h
  · rfl

/-- C7: for every finding set, diff, strip depth and working directory, the
set of findings kept under `added` mode is contained in the set kept under
`diff_context` mode, which is contained in the set kept under `nofilter`
mode. -/
theorem filter_mode_monotone (results : List CheckResult) (fds : List FileDiff)
    (strip : Nat) (relDir : String) (r : CheckResult) :
    (r ∈ keptResults results fds strip relDir Mode.modeAdded →
      r ∈ keptResults results fds strip relDir Mode.modeDiffContext) ∧
    (r ∈ keptResults results fds strip relDir Mode.modeDiffContext →
      r ∈ keptResults results fds strip relDir Mode.modeNoFilter) := by
  constructor
  · intro h
    rw [mem_keptResults] at h ⊢
    exact ⟨h.1, filterOne_added_le_diffContext fds strip relDir r h.2⟩
  · intro h
    rw [mem_keptResults] at h ⊢
    exact ⟨h.1, rfl⟩

/-- A concrete instance of mode monotonicity: the finding at
`sample.new.txt` line 2 is kept under `added` mode on the sample diff,
hence kept under `diff_context`, hence kept under `nofilter`. -/
theorem filter_mode_monotone_witness :
    (⟨"sample.new.txt", 2⟩ : CheckResult) ∈
      keptResults [⟨"sample.new.txt", 2⟩] sampleFileDiffs 0 "" Mode.modeDiffContext ∧
    (⟨"sample.new.txt", 2⟩ : CheckResult) ∈
      keptResults [⟨"sample.new.txt", 2⟩] sampleFileDiffs 0 "" Mode.modeNoFilter := by
  have h1 := (filter_mode_monotone [⟨"sample.new.txt", 2⟩] sampleFileDiffs 0 ""
    ⟨"sample.new.txt", 2⟩).1 (by decide)
  have h2 := (filter_mode_monotone [⟨"sample.new.txt", 2⟩] sampleFileDiffs 0 ""
    ⟨"sample.new.txt", 2⟩).2 h1
  exact ⟨h1, h2⟩

/-! ### GitHub pull-request comment service (`service/github/github.go`) -/

/-- The per-request comment ceiling (`maxCommentsPerRequest` in
`service/github/github.go`). -/
def maxCommentsPerRequest : Nat := 25

/-- A buffered reviewdog comment (`reviewdog.Comment`), with the fields the
GitHub service reads: the path, new-file line, diff position (`LnumDiff`),
tool name, and the underlying result message. -/
structure RdComment where
  path : String
  lnum : Nat
  lnumDiff : Nat
  toolName : String
  message : String
deriving DecidableEq, Repr

/-- A draft review comment as submitted to GitHub
(`github.DraftReviewComment`): the service always sets all three of path,
position and body. -/
structure Draft where
  path : String
  position : Nat
  body : String
deriving DecidableEq, Repr

/-- A remote pull-request comment as returned by the GitHub list API
(`github.PullRequestComment`): path, position and body are each optional
(nil for resolved or outdated comments). -/
structure RemoteComment where
  path : Option String
  position : Option Nat
  body : Option String
deriving DecidableEq, Repr

/-- Modelled from the spec: `serviceutil.PostedComments` (implementation
not in the subset) is a set of (path, diff position, normalized body)
triples already present on the remote review. -/
abbrev PostedComments : Type := List (String × Nat × String)

/-- Modelled from the spec: `AddPostedComment` records one
(path, position, body) triple in the index. -/
def AddPostedComment (pcs : PostedComments) (path : String) (pos : Nat)
    (body : String) : PostedComments :=
  List.concat pcs (path, pos, body)

/-- Modelled from the spec: `IsPosted(c, lnumdiff)` is an exact-match
lookup of (path, diff position, normalized body) in the index, where
`cbody` is the body normalizer (`serviceutil.CommentBody`, not in the
subset, abstracted as a parameter). -/
def IsPosted (pcs : PostedComments) (cbody : RdComment → String)
    (c : RdComment) (lnumdiff : Nat) : Bool :=
  decide ((c.path, lnumdiff, cbody c) ∈ pcs)

/-- The pure content of `setPostedComment`: rebuild the posted-comment
index from the listed remote comments, skipping every comment whose
position, path or body is nil, and recording all others in order. -/
def setPostedComment : List RemoteComment → PostedComments
  | [] => []
  | c :: rest =>
    match c.position, c.path, c.body with
    | some pos, some p, some b => (p, pos, b) :: setPostedComment rest
    | _, _, _ => setPostedComment rest

/-- The loop body of `postAsReviewComment`: walk the buffered comments;
drop each one already posted; the overflow guard
`len(comments) >= maxCommentsPerRequest && false` would divert a comment
to `remaining`, otherwise the comment is appended to the draft list as
(path, LnumDiff, CommentBody(c)). Returns (drafts, remaining). -/
def postLoopAux (posted : PostedComments) (cbody : RdComment → String)
    (acc : List Draft) (rem : List RdComment) :
    List RdComment → List Draft × List RdComment
  | [] => (acc, rem)
  | c :: rest =>
    if IsPosted posted cbody c c.lnumDiff then
      postLoopAux posted cbody acc rem rest
    else if maxCommentsPerRequest ≤ acc.length ∧ False then
      postLoopAux posted cbody acc (rem ++ [c]) rest
    else
      postLoopAux posted cbody (acc ++ [⟨c.path, c.lnumDiff, cbody c⟩]) rem rest

/-- The comment-partitioning phase of `postAsReviewComment`, starting from
empty draft and remaining lists. -/
def buildReviewComments (posted : PostedComments) (cbody : RdComment → String)
    (cs : List RdComment) : List Draft × List RdComment :=
  postLoopAux posted cbody [] [] cs

/-- The per-tool grouping of `remainingCommentsSummary` (the text rendering
of each group is abstracted as the list of comments per tool name). -/
def remainingCommentsSummary (remaining : List RdComment) (tool : String) :
    List RdComment :=
  remaining.filter (fun c => c.toolName = tool)

/-- An error returned by the GitHub client; `isRateLimit` marks the
abuse-rate-limit (403) rejection described in the source comments. -/
structure GError where
  isRateLimit : Bool
  msg : String
deriving DecidableEq, Repr

/-- Observable effects of `postGitHubComments`: a `CreateReview` network
call carrying a batch, or the deliberate backoff sleep of a number of
seconds. -/
inductive Ev where
  | createReview (comments : List Draft)
  | backoffSleep (sec : Nat)
deriving DecidableEq, Repr

/-- The recursive batch submitter `postGitHubComments(ctx, comments, cnt)`:
on an empty list return nil; otherwise submit the first
`min(maxCommentsPerRequest, len(comments))` comments via `CreateReview`
(`create` is the client call, returning an error or success); any error is
returned immediately; if more than the ceiling remain, increment `cnt`,
sleep `2^cnt` seconds, and recurse on the remainder. Returns the ordered
event trace and the final error. -/
def postGitHubComments (create : List Draft → Option GError)
    (comments : List Draft) (cnt : Nat) : List Ev × Option GError :=
  if _h0 : comments.length = 0 then ([], none)
  else
    let batch := comments.take (Nat.min maxCommentsPerRequest comments.length)
    match create batch with
    | some err => ([Ev.createReview batch], some err)
    | none =>
      if hlt : maxCommentsPerRequest < comments.length then
        let rest := postGitHubComments create (comments.drop maxCommentsPerRequest) (cnt + 1)
        (Ev.createReview batch :: Ev.backoffSleep (2 ^ (cnt + 1)) :: rest.1, rest.2)
      else ([Ev.createReview batch], none)
termination_by comments.length
decreasing_by
  have h25 : maxCommentsPerRequest = 25 := rfl
  simp only [List.length_drop]
  omega

/-- The review batches carried by the `CreateReview` calls of a trace, in
order. -/
def reviewBatches (evs : List Ev) : List (List Draft) :=
  evs.filterMap (fun e =>
    match e with
    | Ev.createReview cs => some cs
    | Ev.backoffSleep _ => none)

/-- The full flush pipeline of `Flush`: rebuild the posted-comment index
from the remote comments, partition the buffered comments, and submit the
drafts starting with attempt counter 0. -/
def Flush (create : List Draft → Option GError) (cbody : RdComment → String)
    (remote : List RemoteComment) (buffered : List RdComment) :
    List Ev × Option GError :=
  postGitHubComments create (buildReviewComments (setPostedComment remote) cbody buffered).1 0

/-- Modelled from the Go standard library: `filepath.ToSlash(filepath.Join(wd, p))`
for clean, slash-separated, relative inputs — the empty working directory
joins to the path itself. -/
def joinSlash (wd p : String) : String :=
  if wd = "" then p else wd ++ "/" ++ p

/-- The comment/diff service state (`GitHubPullRequest`), with the pure
fields: owner, repo, PR number, commit SHA, buffered comments, the posted
index, and the working directory `wd`. -/
structure GitHubPullRequest where
  owner : String
  repo : String
  pr : Nat
  sha : String
  postComments : List RdComment
  postedcs : PostedComments
  wd : String

/-- The state-passing content of `Post(ctx, c)`: rewrite the comment's path
to the slash join of the working directory with it, append the comment to
the buffer, and return nil. -/
def Post (g : GitHubPullRequest) (c : RdComment) :
    GitHubPullRequest × RdComment × Option String :=
  let c2 := { c with path := joinSlash g.wd c.path }
  ({ g with postComments := g.postComments ++ [c2] }, c2, none)

/-! ### Theorems about the comment service -/

/-- C10: `Post` always returns nil, rewrites the comment's path to the
slash join of the working directory with its original path, leaves every
other field of the comment unchanged, and appends exactly that comment to
the buffer, leaving the previously buffered comments and every other
service field unchanged. -/
theorem post_appends_and_rewrites_path (g : GitHubPullRequest) (c : RdComment) :
    (Post g c).2.2 = none ∧
    (Post g c).2.1.path = joinSlash g.wd c.path ∧
    (Post g c).2.1.lnum = c.lnum ∧
    (Post g c).2.1.lnumDiff = c.lnumDiff ∧
    (Post g c).2.1.toolName = c.toolName ∧
    (Post g c).2.1.message = c.message ∧
    (Post g c).1.postComments = g.postComments ++ [(Post g c).2.1] ∧
    (Post g c).1.owner = g.owner ∧
    (Post g c).1.repo = g.repo ∧
    (Post g c).1.pr = g.pr ∧
    (Post g c).1.sha = g.sha ∧
    (Post g c).1.postedcs = g.postedcs ∧
    (Post g c).1.wd = g.wd :=
  ⟨rfl, rfl, rfl, rfl, rfl, rfl, rfl, rfl, rfl, rfl, rfl, rfl, rfl⟩

theorem setPostedComment_cons_none (c : RemoteComment) (rest : List RemoteComment)
    (h : c.position = none ∨ c.path = none ∨ c.body = none) :
    setPostedComment (c :: rest) = setPostedComment rest := by
  rcases hpos : c.position with _ | pos0 <;> rcases hp : c.path with _ | p0 <;>
    rcases hb : c.body with _ | b0 <;> simp [setPostedComment, hpos, hp, hb] <;>
    simp_all

theorem setPostedComment_cons_some (c : RemoteComment) (rest : List RemoteComment)
    (p : String) (pos : Nat) (b : String) (hpos : c.position = some pos)
    (hp : c.path = some p) (hb : c.body = some b) :
    setPostedComment (c :: rest) = (p, pos, b) :: setPostedComment rest := by
  simp [setPostedComment, hpos, hp, hb]

theorem setPostedComment_mem (cs : List RemoteComment) (p : String) (pos : Nat)
    (b : String) :
    (p, pos, b) ∈ setPostedComment cs ↔
      ∃ c ∈ cs, c.path = some p ∧ c.position = some pos ∧ c.body = some b := by
  induction cs with
  | nil => simp [setPostedComment]
  | cons c rest ih =>
    by_cases hc : c.position = none ∨ c.path = none ∨ c.body = none
    · rw [setPostedComment_cons_none c rest hc, ih]
      constructor
      · rintro ⟨c2, h2, hf⟩
        exact ⟨c2, List.mem_cons_of_mem _ h2, hf⟩
      · rintro ⟨c2, h2, hf⟩
        rcases List.mem_cons.mp h2 with rfl | h2
        · rcases hc with h | h | h <;> rw [h] at hf <;> simp_all
        · exact ⟨c2, h2, hf⟩
    · push_neg at hc
      obtain ⟨hpos1, hp1, hb1⟩ := hc
      obtain ⟨pos0, hpos⟩ := Option.ne_none_iff_exists'.mp hpos1
      obtain ⟨p0, hp⟩ := Option.ne_none_iff_exists'.mp hp1
      obtain ⟨b0, hb⟩ := Option.ne_none_iff_exists'.mp hb1
      rw [setPostedComment_cons_some c rest p0 pos0 b0 hpos hp hb]
      simp only [List.mem_cons, ih, Prod.mk.injEq]
      constructor
      · rintro (⟨rfl, rfl, rfl⟩ | ⟨c2, h2, hf⟩)
        · exact ⟨c, Or.inl rfl, hp, hpos, hb⟩
        · exact ⟨c2, Or.inr h2, hf⟩
      · rintro ⟨c2, hor, hf⟩
        rcases hor with rfl | h2
        · obtain ⟨hfp, hfpos, hfb⟩ := hf
          rw [hp] at hfp
          rw [hpos] at hfpos
          rw [hb] at hfb
          exact Or.inl ⟨(Option.some.inj hfp).symm, (Option.some.inj hfpos).symm,
            (Option.some.inj hfb).symm⟩
        · exact Or.inr ⟨c2, h2, hf⟩

/-- C8: building the posted-comment index skips every remote comment with
a nil path, position or body (it contributes nothing to the index), while
a remote comment with all three fields present is recorded under
(path, position, body); membership in the built index holds exactly for
triples realized by some listed remote comment with all fields present. -/
theorem posted_index_skips_incomplete (cs : List RemoteComment)
    (c : RemoteComment) (p : String) (pos : Nat) (b : String) :
    (c.position = none ∨ c.path = none ∨ c.body = none →
      setPostedComment (c :: cs) = setPostedComment cs) ∧
    (c.position = some pos → c.path = some p → c.body = some b →
      setPostedComment (c :: cs) = (p, pos, b) :: setPostedComment cs) ∧
    ((p, pos, b) ∈ setPostedComment cs ↔
      ∃ c2 ∈ cs, c2.path = some p ∧ c2.position = some pos ∧ c2.body = some b) := by
  exact ⟨fun h => setPostedComment_cons_none c cs h,
    fun hpos hp hb => setPostedComment_cons_some c cs p pos b hpos hp hb,
    setPostedComment_mem cs p pos b⟩

/-- A concrete application of the posted-index theorem: a remote comment
with a nil position is skipped, and a complete remote comment is indexed
under its triple. -/
theorem posted_index_skips_incomplete_witness :
    setPostedComment [⟨some "a.go", none, some "body"⟩] = setPostedComment [] ∧
    setPostedComment [⟨some "a.go", some 3, some "body"⟩] =
      ("a.go", 3, "body") :: setPostedComment [] := by
  refine ⟨(posted_index_skips_incomplete [] ⟨some "a.go", none, some "body"⟩
    "a.go" 3 "body").1 (Or.inl rfl),
    (posted_index_skips_incomplete [] ⟨some "a.go", some 3, some "body"⟩
    "a.go" 3 "body").2.1 rfl rfl rfl⟩

theorem postLoopAux_spec (posted : PostedComments) (cbody : RdComment → String)
    (cs : List RdComment) : ∀ acc rem,
    postLoopAux posted cbody acc rem cs =
      (acc ++ (cs.filter (fun c => !IsPosted posted cbody c c.lnumDiff)).map
        (fun c => ⟨c.path, c.lnumDiff, cbody c⟩), rem) := by
  induction cs with
  | nil => intro acc rem; simp [postLoopAux]
  | cons c rest ih =>
    intro acc rem
    cases h : IsPosted posted cbody c c.lnumDiff <;>
      simp [postLoopAux, h, ih]

/-- C9: the overflow branch of `postAsReviewComment` is unreachable: for
every posted index, body normalizer and buffered list, the `remaining`
list is empty, every non-duplicate buffered comment is turned into a draft
review comment (in order), and `remainingCommentsSummary` applied to the
remaining list yields no comments for any tool. -/
theorem overflow_branch_inert (posted : PostedComments)
    (cbody : RdComment → String) (cs : List RdComment) (tool : String) :
    (buildReviewComments posted cbody cs).2 = [] ∧
    (buildReviewComments posted cbody cs).1 =
      (cs.filter (fun c => !IsPosted posted cbody c c.lnumDiff)).map
        (fun c => ⟨c.path, c.lnumDiff, cbody c⟩) ∧
    remainingCommentsSummary (buildReviewComments posted cbody cs).2 tool = [] := by
  rw [buildReviewComments, postLoopAux_spec]
  exact ⟨rfl, by simp, rfl⟩

theorem setPostedComment_append (a b : List RemoteComment) :
    setPostedComment (a ++ b) = setPostedComment a ++ setPostedComment b := by
  induction a with
  | nil => simp [setPostedComment]
  | cons c rest ih =>
    by_cases hc : c.position = none ∨ c.path = none ∨ c.body = none
    · rw [List.cons_append, setPostedComment_cons_none c _ hc,
        setPostedComment_cons_none c rest hc, ih]
    · push_neg at hc
      obtain ⟨hpos1, hp1, hb1⟩ := hc
      obtain ⟨pos0, hpos⟩ := Option.ne_none_iff_exists'.mp hpos1
      obtain ⟨p0, hp⟩ := Option.ne_none_iff_exists'.mp hp1
      obtain ⟨b0, hb⟩ := Option.ne_none_iff_exists'.mp hb1
      rw [List.cons_append, setPostedComment_cons_some c _ p0 pos0 b0 hpos hp hb,
        setPostedComment_cons_some c rest p0 pos0 b0 hpos hp hb, ih, List.cons_append]

/-- How a draft created by a flush appears when listed back from the
remote: all three fields present. -/
def draftToRemote (d : Draft) : RemoteComment :=
  ⟨some d.path, some d.position, some d.body⟩

theorem setPostedComment_drafts (ds : List Draft) :
    setPostedComment (ds.map draftToRemote) =
      ds.map (fun d => (d.path, d.position, d.body)) := by
  induction ds with
  | nil => simp [setPostedComment]
  | cons d rest ih => simp [setPostedComment, draftToRemote, ih]

theorem postGitHubComments_nil (create : List Draft → Option GError) (cnt : Nat) :
    postGitHubComments create [] cnt = ([], none) := by
  unfold postGitHubComments
  simp

/-- The remote comment state after a first flush against `remote` with the
given buffered comments: the original remote comments plus every draft the
first flush created. -/
def flushedRemote (cbody : RdComment → String) (remote : List RemoteComment)
    (buffered : List RdComment) : List RemoteComment :=
  remote ++
    ((buildReviewComments (setPostedComment remote) cbody buffered).1).map draftToRemote

/-- C2: flushing a second time with the same buffered comments against a
remote state that already contains every comment created by the first
flush makes zero review-creation calls: the rebuilt index marks every
buffered comment as posted, the submission list is empty, and the batch
submitter returns immediately with an empty event trace and no error. -/
theorem flush_idempotent (create : List Draft → Option GError)
    (cbody : RdComment → String) (remote : List RemoteComment)
    (buffered : List RdComment) :
    (∀ c ∈ buffered,
      IsPosted (setPostedComment (flushedRemote cbody remote buffered)) cbody
        c c.lnumDiff = true) ∧
    (buildReviewComments (setPostedComment (flushedRemote cbody remote buffered))
      cbody buffered).1 = [] ∧
    Flush create cbody (flushedRemote cbody remote buffered) buffered = ([], none) := by
  have hmem : ∀ c ∈ buffered,
      (c.path, c.lnumDiff, cbody c) ∈
        setPostedComment (flushedRemote cbody remote buffered) := by
    intro c hcmem
    rw [flushedRemote, setPostedComment_append, setPostedComment_drafts]
    by_cases hp : (c.path, c.lnumDiff, cbody c) ∈ setPostedComment remote
    · exact List.mem_append_left _ hp
    · refine List.mem_append_right _ ?_
      have hnot : IsPosted (setPostedComment remote) cbody c c.lnumDiff = false := by
        simp [IsPosted, hp]
      have hdraft : (⟨c.path, c.lnumDiff, cbody c⟩ : Draft) ∈
          (buildReviewComments (setPostedComment remote) cbody buffered).1 := by
        rw [buildReviewComments, postLoopAux_spec]
        simp only [List.nil_append]
        refine List.mem_map.mpr ⟨c, ?_, rfl⟩
        exact List.mem_filter.mpr ⟨hcmem, by simp [hnot]⟩
      exact List.mem_map.mpr ⟨⟨c.path, c.lnumDiff, cbody c⟩, hdraft, rfl⟩
  have hposted : ∀ c ∈ buffered,
      IsPosted (setPostedComment (flushedRemote cbody remote buffered)) cbody
        c c.lnumDiff = true := by
    intro c hcmem
    simp [IsPosted, hmem c hcmem]
  have hfil : buffered.filter
      (fun c => !IsPosted (setPostedComment (flushedRemote cbody remote buffered))
        cbody c c.lnumDiff) = [] := by
    rw [List.filter_eq_nil_iff]
    intro c hcmem
    simp [hposted c hcmem]
  have hempty : (buildReviewComments
      (setPostedComment (flushedRemote cbody remote buffered)) cbody buffered).1 = [] := by
    rw [buildReviewComments, postLoopAux_spec, hfil]
    simp
  refine ⟨hposted, hempty, ?_⟩
  rw [Flush, hempty]
  exact postGitHubComments_nil create 0

/-- A concrete second flush: even with a client that would fail every
call, the second flush after a first flush of one comment against an empty
remote issues no calls and returns no error. -/
theorem flush_idempotent_witness :
    Flush (fun _ => some ⟨true, "abuse"⟩) (fun c => c.message)
      (flushedRemote (fun c => c.message) [] [⟨"a.go", 1, 2, "tool", "m"⟩])
      [⟨"a.go", 1, 2, "tool", "m"⟩] = ([], none) :=
  (flush_idempotent (fun _ => some ⟨true, "abuse"⟩) (fun c => c.message) []
    [⟨"a.go", 1, 2, "tool", "m"⟩]).2.2

theorem reviewBatches_cons_create (x : List Draft) (evs : List Ev) :
    reviewBatches (Ev.createReview x :: evs) = x :: reviewBatches evs := by
  simp [reviewBatches]

theorem reviewBatches_cons_sleep (s : Nat) (evs : List Ev) :
    reviewBatches (Ev.backoffSleep s :: evs) = reviewBatches evs := by
  simp [reviewBatches]

theorem postGitHubComments_err (create : List Draft → Option GError)
    (cs : List Draft) (cnt : Nat) (e : GError) (h0 : cs ≠ [])
    (h : create (cs.take (Nat.min maxCommentsPerRequest cs.length)) = some e) :
    postGitHubComments create cs cnt =
      ([Ev.createReview (cs.take (Nat.min maxCommentsPerRequest cs.length))], some e) := by
  have hne : ¬(cs.length = 0) := by simpa using h0
  unfold postGitHubComments
  rw [dif_neg hne]
  simp [h]

theorem postGitHubComments_ok_small (create : List Draft → Option GError)
    (cs : List Draft) (cnt : Nat) (h0 : cs ≠ [])
    (hle : cs.length ≤ maxCommentsPerRequest)
    (h : create (cs.take (Nat.min maxCommentsPerRequest cs.length)) = none) :
    postGitHubComments create cs cnt =
      ([Ev.createReview (cs.take (Nat.min maxCommentsPerRequest cs.length))], none) := by
  have hne : ¬(cs.length = 0) := by simpa using h0
  have hnlt : ¬(maxCommentsPerRequest < cs.length) := Nat.not_lt.mpr hle
  unfold postGitHubComments
  rw [dif_neg hne]
  simp [h, hnlt]

theorem postGitHubComments_ok_big (create : List Draft → Option GError)
    (cs : List Draft) (cnt : Nat) (hgt : maxCommentsPerRequest < cs.length)
    (h : create (cs.take maxCommentsPerRequest) = none) :
    postGitHubComments create cs cnt =
      (Ev.createReview (cs.take maxCommentsPerRequest) ::
        Ev.backoffSleep (2 ^ (cnt + 1)) ::
        (postGitHubComments create (cs.drop maxCommentsPerRequest) (cnt + 1)).1,
       (postGitHubComments create (cs.drop maxCommentsPerRequest) (cnt + 1)).2) := by
  have hne : ¬(cs.length = 0) := by omega
  have hmin : Nat.min maxCommentsPerRequest cs.length = maxCommentsPerRequest :=
    Nat.min_eq_left (le_of_lt hgt)
  conv_lhs => unfold postGitHubComments
  rw [dif_neg hne]
  simp [hmin, h, hgt]

theorem postGitHubComments_ok_spec (create : List Draft → Option GError)
    (hok : ∀ b, create b = none) :
    ∀ n cs cnt, List.length cs ≤ n →
      (postGitHubComments create cs cnt).2 = none ∧
      (reviewBatches (postGitHubComments create cs cnt).1).flatten = cs ∧
      ∀ b ∈ reviewBatches (postGitHubComments create cs cnt).1,
        b.length ≤ maxCommentsPerRequest := by
  intro n
  induction n with
  | zero =>
    intro cs cnt hlen
    have hnil : cs = [] := List.length_eq_zero.mp (Nat.le_zero.mp hlen)
    subst hnil
    rw [postGitHubComments_nil]
    simp [reviewBatches]
  | succ n ih =>
    intro cs cnt hlen
    by_cases h0 : cs = []
    · subst h0
      rw [postGitHubComments_nil]
      simp [reviewBatches]
    · by_cases hgt : maxCommentsPerRequest < cs.length
      · rw [postGitHubComments_ok_big create cs cnt hgt (hok _)]
        have h25 : maxCommentsPerRequest = 25 := rfl
        obtain ⟨he, hj, hb⟩ := ih (cs.drop maxCommentsPerRequest) (cnt + 1)
          (by simp only [List.length_drop]; omega)
        refine ⟨he, ?_, ?_⟩
        · rw [reviewBatches_cons_create, reviewBatches_cons_sleep, List.flatten_cons, hj]
          exact List.take_append_drop maxCommentsPerRequest cs
        · intro b hbmem
          rw [reviewBatches_cons_create, reviewBatches_cons_sleep] at hbmem
          rcases List.mem_cons.mp hbmem with rfl | hbmem2
          · simp [List.length_take]
          · exact hb b hbmem2
      · have hle : cs.length ≤ maxCommentsPerRequest := Nat.not_lt.mp hgt
        rw [postGitHubComments_ok_small create cs cnt h0 hle (hok _)]
        have hmin : Nat.min maxCommentsPerRequest cs.length = cs.length :=
          Nat.min_eq_right hle
        rw [hmin, List.take_length]
        refine ⟨rfl, by simp [reviewBatches], ?_⟩
        intro b hbmem
        rw [reviewBatches_cons_create] at hbmem
        rcases List.mem_cons.mp hbmem with rfl | hbmem2
        · exact hle
        · simp [reviewBatches] at hbmem2

/-- Forty pairwise distinct draft comments. -/
def mkDrafts (n : Nat) : List Draft :=
  (List.range n).map (fun i => ⟨"f", i + 1, "m"⟩)

/-- C3: with 40 new comments, a ceiling of 25 and a client that accepts
every call, exactly two `CreateReview` calls occur, carrying 25 and 15
comments, the second preceded by a sleep of `2^1 = 2` seconds (the attempt
counter starts at 1 after the first submission); in general, with an
always-accepting client, every submitted batch carries at most
`maxCommentsPerRequest` comments and the concatenation of the batches, in
order, is exactly the submitted sequence. -/
theorem batch_ceiling :
    (postGitHubComments (fun _ => none) (mkDrafts 40) 0 =
      ([Ev.createReview ((mkDrafts 40).take 25), Ev.backoffSleep 2,
        Ev.createReview ((mkDrafts 40).drop 25)], none) ∧
     ((mkDrafts 40).take 25).length = 25 ∧
     ((mkDrafts 40).drop 25).length = 15) ∧
    ∀ (create : List Draft → Option GError) (cs : List Draft) (cnt : Nat),
      (∀ b, create b = none) →
      (reviewBatches (postGitHubComments create cs cnt).1).flatten = cs ∧
      ∀ b ∈ reviewBatches (postGitHubComments create cs cnt).1,
        b.length ≤ maxCommentsPerRequest := by
  constructor
  · have h25 : maxCommentsPerRequest = 25 := rfl
    have hlen : (mkDrafts 40).length = 40 := by simp [mkDrafts]
    have hgt : maxCommentsPerRequest < (mkDrafts 40).length := by
      rw [hlen, h25]
      omega
    have hdlen : ((mkDrafts 40).drop maxCommentsPerRequest).length = 15 := by
      rw [List.length_drop, hlen, h25]
    have hdne : (mkDrafts 40).drop maxCommentsPerRequest ≠ [] := by
      intro hcon
      rw [hcon] at hdlen
      simp at hdlen
    have hdle : ((mkDrafts 40).drop maxCommentsPerRequest).length ≤ maxCommentsPerRequest := by
      rw [hdlen, h25]
      omega
    rw [postGitHubComments_ok_big (fun _ => none) (mkDrafts 40) 0 hgt rfl,
      postGitHubComments_ok_small (fun _ => none) ((mkDrafts 40).drop maxCommentsPerRequest)
        1 hdne hdle rfl]
    have hmin : Nat.min maxCommentsPerRequest ((mkDrafts 40).drop maxCommentsPerRequest).length =
        ((mkDrafts 40).drop maxCommentsPerRequest).length := Nat.min_eq_right hdle
    rw [hmin, List.take_length, h25]
    refine ⟨rfl, ?_, hdlen⟩
    rw [List.length_take, hlen]
    decide
  · intro create cs cnt hok
    obtain ⟨_, hj, hb⟩ := postGitHubComments_ok_spec create hok cs.length cs cnt le_rfl
    exact ⟨hj, hb⟩

/-- A closed instance of the batching theorem: submitting three comments
with an always-accepting client yields batches that concatenate back to
the input. -/
theorem batch_ceiling_witness :
    (reviewBatches (postGitHubComments (fun _ => none) (mkDrafts 3) 7).1).flatten =
      mkDrafts 3 :=
  ((batch_ceiling).2 (fun _ => none) (mkDrafts 3) 7 (fun _ => rfl)).1

/-- C4 counterexample: with a single buffered comment and a client whose
`CreateReview` fails with the abuse-rate-limit rejection, the flush does
not retry and does not swallow the error: exactly one `CreateReview` call
occurs, no backoff sleep follows, and the rate-limit error is returned to
the caller. -/
theorem rate_limit_surfaced_counterexample :
    postGitHubComments (fun _ => some ⟨true, "abuse detection"⟩)
      [⟨"a.go", 1, "m"⟩] 0 =
      ([Ev.createReview [⟨"a.go", 1, "m"⟩]], some ⟨true, "abuse detection"⟩) ∧
    (postGitHubComments (fun _ => some ⟨true, "abuse detection"⟩)
      [⟨"a.go", 1, "m"⟩] 0).2 ≠ none := by
  have h := postGitHubComments_err (fun _ => some ⟨true, "abuse detection"⟩)
    [⟨"a.go", 1, "m"⟩] 0 ⟨true, "abuse detection"⟩ (by simp) rfl
  have hmin : Nat.min maxCommentsPerRequest (List.length [(⟨"a.go", 1, "m"⟩ : Draft)]) = 1 := by
    simp [maxCommentsPerRequest]
  rw [hmin] at h
  simp only [List.take_succ_cons, List.take_zero] at h
  rw [h]
  simp

/-- C4 (amended): every submission failure — whether or not it is the
abuse-rate-limit rejection — is surfaced immediately to the caller: the
failed `CreateReview` call is not retried, no backoff sleep occurs, and no
further batches are submitted. The backoff sleep happens only between
successive successful batch submissions. -/
theorem submission_failure_surfaced (create : List Draft → Option GError)
    (cs : List Draft) (cnt : Nat) (e : GError) (h0 : cs ≠ [])
    (h : create (cs.take (Nat.min maxCommentsPerRequest cs.length)) = some e) :
    postGitHubComments create cs cnt =
      ([Ev.createReview (cs.take (Nat.min maxCommentsPerRequest cs.length))], some e) :=
  postGitHubComments_err create cs cnt e h0 h

/-- A concrete instance of the amended C4: a non-rate-limit failure is
likewise surfaced after exactly one call. -/
theorem submission_failure_surfaced_witness :
    postGitHubComments (fun _ => some ⟨false, "boom"⟩) [⟨"b.go", 2, "x"⟩] 3 =
      ([Ev.createReview [⟨"b.go", 2, "x"⟩]], some ⟨false, "boom"⟩) := by
  have h := submission_failure_surfaced (fun _ => some ⟨false, "boom"⟩)
    [⟨"b.go", 2, "x"⟩] 3 ⟨false, "boom"⟩ (by simp) rfl
  have hmin : Nat.min maxCommentsPerRequest (List.length [(⟨"b.go", 2, "x"⟩ : Draft)]) = 1 := by
    simp [maxCommentsPerRequest]
  rw [hmin] at h
  simpa using h

/-! ### Doghouse check server (`doghouse/server`) -/

/-- One reported annotation of a check request (`doghouse.Annotation`). -/
structure Annotation where
  path : String
  line : Nat
  message : String
  rawMessage : String
deriving DecidableEq, Repr

/-- A check request (`doghouse.CheckRequest`): owner, repo, PR number,
commit SHA, check name, annotations and the minimum severity level. -/
structure CheckRequest where
  name : String
  owner : String
  repo : String
  pullRequest : Nat
  sha : String
  annotations : List Annotation
  level : String

/-- One check-run annotation as submitted to GitHub
(`github.CheckRunAnnotation`). -/
structure CheckRunAnnotation where
  path : String
  startLine : Nat
  endLine : Nat
  annotationLevel : String
  message : String
  title : String
  rawDetails : String
deriving DecidableEq, Repr

/-- The options of one check-run creation call
(`github.CreateCheckRunOptions`). -/
structure CheckRunOptions where
  name : String
  headSHA : String
  conclusion : String
  annotations : List CheckRunAnnotation

/-- The created check run (`github.CheckRun`), exposing its report URL. -/
structure CheckRun where
  htmlURL : String

/-- A GitHub API error (`github.ErrorResponse`), exposing the HTTP status
code of the rejected call. -/
structure APIError where
  status : Nat
  msg : String
deriving DecidableEq, Repr

/-- The response of a check call (`doghouse.CheckResponse`): the remote
report URL and the locally computed filtered results (`CheckedResults`,
nil when not populated). -/
structure CheckResponse where
  reportURL : String
  checkedResults : Option (List FilteredCheck)
deriving Repr

/-- A terminal error of `Check`: the diff fetch failed, or the check-run
creation failed with an error that is not handled locally. -/
inductive CheckError where
  | diffFailure (msg : String)
  | checkRunFailure (e : APIError)
deriving DecidableEq, Repr

/-- Modelled from the spec: the check-run annotation built for one in-diff
finding — title derived from tool name, path and 1-based line, level taken
from the request's minimum severity, body from the raw message. -/
def checkRunAnnotationOf (req : CheckRequest) (a : Annotation) : CheckRunAnnotation :=
  { path := a.path
    startLine := a.line
    endLine := a.line
    annotationLevel := req.level
    message := a.message
    title := "[" ++ req.name ++ "] " ++ a.path ++ "#L" ++ toString a.line
    rawDetails := a.rawMessage }

/-- Modelled from the spec: the conclusion policy — no qualifying
annotation yields a success verdict; otherwise an error-level request
fails the check and lower levels yield a neutral verdict (warning level is
observed to produce neutral). -/
def checkConclusion (level : String) (anns : List CheckRunAnnotation) : String :=
  if anns.isEmpty then "success"
  else if level = "error" then "failure"
  else "neutral"

/-- Modelled from the spec: the check-run creation options `Check` builds —
one annotation per in-diff finding under the default (`added`) reporting
policy, with the PR-diff strip depth of 1 and no working subdirectory. -/
def checkRunOptionsOf (req : CheckRequest) (fds : List FileDiff) : CheckRunOptions :=
  let anns := (req.annotations.filter
    (fun a => (filterOne fds 1 "" Mode.modeAdded ⟨a.path, a.line⟩).inDiff)).map
    (checkRunAnnotationOf req)
  { name := req.name
    headSHA := req.sha
    conclusion := checkConclusion req.level anns
    annotations := anns }

/-- The locally computed filtered results carried in the response. -/
def checkedResultsOf (req : CheckRequest) (fds : List FileDiff) : List FilteredCheck :=
  FilterCheck (req.annotations.map (fun a => ⟨a.path, a.line⟩)) fds 1 "" Mode.modeAdded

/-- Modelled from the spec: `Checker.Check` (implementation not in the
subset; behavior fixed by §4.4 and `doghouse_test.go`). `getDiff` is the
result of the PR-diff fetch and parse; `createCheckRun` is the check-run
creation capability. A diff-fetch failure is terminal; a 403-class failure
of the creation call degrades to a response carrying the locally computed
results and no report URL; any other creation failure is terminal. -/
def Check (getDiff : Except String (List FileDiff))
    (createCheckRun : CheckRunOptions → Except APIError CheckRun)
    (req : CheckRequest) : Except CheckError CheckResponse :=
  match getDiff with
  | Except.error e => Except.error (CheckError.diffFailure e)
  | Except.ok fds =>
    match createCheckRun (checkRunOptionsOf req fds) with
    | Except.error e =>
      if e.status = 403 then
        Except.ok { reportURL := "", checkedResults := some (checkedResultsOf req fds) }
      else
        Except.error (CheckError.checkRunFailure e)
    | Except.ok run =>
      Except.ok { reportURL := run.htmlURL, checkedResults := some (checkedResultsOf req fds) }

/-- C5: when the check-run creation call fails with an HTTP 403 error,
`Check` returns no error: it returns a response whose `CheckedResults` is
non-nil (the locally computed results) and whose report URL is empty. -/
theorem check_403_degrades (fds : List FileDiff) (req : CheckRequest)
    (create : CheckRunOptions → Except APIError CheckRun) (e : APIError)
    (hcreate : create (checkRunOptionsOf req fds) = Except.error e)
    (h403 : e.status = 403) :
    Check (Except.ok fds) create req =
      Except.ok { reportURL := "", checkedResults := some (checkedResultsOf req fds) } ∧
    some (checkedResultsOf req fds) ≠ none := by
  constructor
  · rw [Check, hcreate]
    simp [h403]
  · simp

/-- The concrete request of `doghouse_test.go`: one in-diff annotation at
`sample.new.txt` line 2 and one outside-diff annotation at line 14, at
warning level. -/
def sampleCheckRequest : CheckRequest :=
  { name := "haya14busa-linter"
    owner := "haya14busa"
    repo := "reviewdog"
    pullRequest := 14
    sha := "1414"
    annotations := [⟨"sample.new.txt", 2, "test message", "raw test message"⟩,
      ⟨"sample.new.txt", 14, "test message outside diff", "raw test message outside diff"⟩]
    level := "warning" }

/-- A concrete 403-degradation instance: with the sample diff, the sample
request and a client rejecting check-run creation with status 403,
`Check` returns the degraded response with non-nil results. -/
theorem check_403_degrades_witness :
    Check (Except.ok sampleFileDiffs)
      (fun _ => Except.error ⟨403, "Forbidden"⟩) sampleCheckRequest =
      Except.ok ⟨"", some (checkedResultsOf sampleCheckRequest sampleFileDiffs)⟩ :=
  (check_403_degrades sampleFileDiffs sampleCheckRequest
    (fun _ => Except.error ⟨403, "Forbidden"⟩) ⟨403, "Forbidden"⟩ rfl rfl).1

/-- C6: `Check` returns a terminal error exactly when the PR-diff fetch
fails or the check-run creation call fails with a non-403 error; in every
other case it returns a (possibly degraded) response. -/
theorem check_error_iff (getDiff : Except String (List FileDiff))
    (create : CheckRunOptions → Except APIError CheckRun) (req : CheckRequest) :
    (∃ err, Check getDiff create req = Except.error err) ↔
      ((∃ de, getDiff = Except.error de) ∨
       (∃ fds e, getDiff = Except.ok fds ∧
         create (checkRunOptionsOf req fds) = Except.error e ∧ e.status ≠ 403)) := by
  rcases getDiff with e | fds
  · simp [Check]
  · rcases hcr : create (checkRunOptionsOf req fds) with e2 | run
    · by_cases h403 : e2.status = 403
      · simp [Check, hcr, h403]
      · simp [Check, hcr, h403]
    · simp [Check, hcr]

/-- A closed instance of the error characterization: a failing diff fetch
makes `Check` return an error, and a 403-only creation failure does not. -/
theorem check_error_iff_witness :
    (∃ err, Check (Except.error "test diff failure")
      (fun _ => Except.ok ⟨"http://example.com/report_url"⟩) sampleCheckRequest =
        Except.error err) ∧
    ¬(∃ err, Check (Except.ok sampleFileDiffs)
      (fun _ => Except.error ⟨403, "Forbidden"⟩) sampleCheckRequest =
        Except.error err) := by
  constructor
  · exact (check_error_iff (Except.error "test diff failure")
      (fun _ => Except.ok ⟨"http://example.com/report_url"⟩)
      sampleCheckRequest).mpr (Or.inl ⟨"test diff failure", rfl⟩)
  · intro hcon
    have h := (check_error_iff (Except.ok sampleFileDiffs)
      (fun _ => Except.error ⟨403, "Forbidden"⟩) sampleCheckRequest).mp hcon
    rcases h with ⟨de, hde⟩ | ⟨fds2, e2, hfds, hcr, hst⟩
    · exact absurd hde (by simp)
    · have he2 : e2 = (⟨403, "Forbidden"⟩ : APIError) := by
        have h2 := hcr
        simp at h2
        exact h2.symm
      exact hst (by rw [he2])

end Reviewdog
